import Mathlib

set_option maxRecDepth 8000

/-
Verification development for the discord-coder-bot repository.

The definitions below are a shallow embedding of the agent execution core
(src/agent/GeminiAgent.ts together with the PlanningUtils section of the same
file), the tool registry (the ToolRegistry section of src/tools/VercelTool.ts),
the MCP schema sanitizer (src/tools/McpManager.ts), and the session manager
(src/agent/Session.ts).  Effectful collaborators that live outside the
repository (the Gemini network call, the operating system behind the shell
tool and the MCP subprocess servers) are modelled as parameters: the LLM
backend is a function from the current history to either a thrown fault or a
response, and each registered tool is a function from its arguments and the
current agent history to a thrown fault or a ToolResult together with the
history after the call (the history argument models the onReset callback that
a tool may invoke; tools of the repository either leave the history unchanged
or clear it).
-/

namespace DCB

/-- The apostrophe character, used to assemble string literals verbatim from
the source. -/
def apos : Char := Char.ofNat 39

/-- The apostrophe as a one-character string. -/
def aposS : String := String.singleton apos

/-! ## JSON-like values

Tool arguments and tool result payloads are `Record<string, unknown>` /
arbitrary serializable values in the source.  They are modelled by a
JSON-value type.  Arrays and objects are mutual inductives so that all
functions over them are plain structural recursions. -/

mutual
inductive JVal where
  | str (s : String)
  | num (n : Int)
  | bool (b : Bool)
  | null
  | arr (a : JArr)
  | obj (o : JObj)

inductive JArr where
  | nil
  | cons (v : JVal) (rest : JArr)

inductive JObj where
  | nil
  | cons (key : String) (v : JVal) (rest : JObj)
end

/-- A Gemini FunctionCall: `{ name?: string; args?: object }`.  The name is
optional in the SDK type; `args` is modelled as an always-present JSON value. -/
structure FunctionCall where
  name : Option String
  args : JVal

/-- interfaces/Tool.ts ToolResult: `{ success, data, error? }`. -/
structure ToolResult where
  success : Bool
  data : JVal
  error : Option String

/-- interfaces/Tool.ts successResult. -/
def successResult (data : JVal) : ToolResult :=
  { success := true, data := data, error := none }

/-- interfaces/Tool.ts errorResult; `data ?? null`. -/
def errorResult (e : String) (data : JVal := JVal.null) : ToolResult :=
  { success := false, data := data, error := some e }

/-- One part of a Gemini Content: `{ text }`, `{ functionCall }` or
`{ functionResponse: { name, response } }`.  The response recorded for a
function call is the formatted record built by GeminiAgent._executeTool,
which has the shape of a ToolResult. -/
inductive Part where
  | text (s : String)
  | functionCall (fc : FunctionCall)
  | functionResponse (name : Option String) (response : ToolResult)

/-- A Gemini Content: one conversation history entry. -/
structure Content where
  role : String
  parts : List Part

/-! ## Serialized size of a history entry

GeminiAgent._trimHistory measures each entry by
`JSON.stringify(content).length`.  The functions below compute that length
directly, following the JSON text JavaScript would produce for the objects
the agent stores (keys in insertion order, `undefined` fields omitted).
String escaping covers the escapes JSON.stringify uses for the characters
appearing in this development (quote, backslash, newline, tab, carriage
return map to two characters; every other character to one). -/

/-- Serialized length of one character inside a JSON string literal. -/
def escLen (c : Char) : Nat :=
  if c = '"' ∨ c = '\\' ∨ c = '\n' ∨ c = '\t' ∨ c = '\r' then 2 else 1

/-- Serialized length of a JSON string literal: two quotes plus escaped
characters. -/
def jstrLen (s : String) : Nat := 2 + (s.toList.map escLen).sum

mutual
/-- Serialized length of a JSON value. -/
def jvalSize : JVal → Nat
  | .str s => jstrLen s
  | .num n => (toString n).length
  | .bool b => if b then 4 else 5
  | .null => 4
  | .arr a => 2 + jarrSize a
  | .obj o => 2 + jobjSize o

/-- Serialized length of the elements of a JSON array (commas included,
brackets excluded). -/
def jarrSize : JArr → Nat
  | .nil => 0
  | .cons v .nil => jvalSize v
  | .cons v rest => jvalSize v + 1 + jarrSize rest

/-- Serialized length of the entries of a JSON object (commas included,
braces excluded); each entry serializes as key, colon, value. -/
def jobjSize : JObj → Nat
  | .nil => 0
  | .cons k v .nil => jstrLen k + 1 + jvalSize v
  | .cons k v rest => jstrLen k + 1 + jvalSize v + 1 + jobjSize rest
end

/-- Serialized length contributed by an optional `name` field followed by a
comma; an absent name is omitted entirely by JSON.stringify. -/
def optNameSize : Option String → Nat
  | some n => 6 + 1 + jstrLen n + 1
  | none => 0

/-- Serialized length of a FunctionCall object: braces, the optional
name entry, then the args entry (key `args` quoted is 6 characters plus the
colon). -/
def fcSize (fc : FunctionCall) : Nat :=
  2 + optNameSize fc.name + 7 + jvalSize fc.args

/-- Serialized length of the formatted tool result
`{ success, data, error? }`: braces, `success` entry (10 including colon),
`true`/`false`, comma plus `data` entry key (8), the data value, and the
optional comma plus `error` entry key (9) with its string. -/
def fmtSize (r : ToolResult) : Nat :=
  2 + 10 + (if r.success then 4 else 5) + 8 + jvalSize r.data +
    (match r.error with
      | some e => 9 + jstrLen e
      | none => 0)

/-- Serialized length of one history part. -/
def partSize : Part → Nat
  | .text s => 2 + 7 + jstrLen s
  | .functionCall fc => 2 + 15 + fcSize fc
  | .functionResponse n r => 2 + 19 + (2 + optNameSize n + 11 + fmtSize r)

/-- Serialized length of a parts list (commas included, brackets excluded). -/
def partsSize : List Part → Nat
  | [] => 0
  | [p] => partSize p
  | p :: rest => partSize p + 1 + partsSize rest

/-- Serialized length of a Content entry
`{ "role": R, "parts": [ ... ] }`: braces (2), `"role":` (7), the role
string, `,"parts":` (9), brackets (2), and the parts. -/
def contentSize (c : Content) : Nat :=
  2 + 7 + jstrLen c.role + 9 + 2 + partsSize c.parts

/-! ## History trimming (GeminiAgent._trimHistory)

MAX_TOKENS = 100000, CHARS_PER_TOKEN = 4, so MAX_CHARS = 400000.  The source
walks the history backwards, accumulating entries while the running character
total stays at or below the budget, breaking at the first entry that would
exceed it; afterwards it shifts leading entries whose role is "function". -/

/-- Backward accumulation pass of _trimHistory: the first argument is the
reversed history (most recent first), the second the running character count,
the third the preserved entries (in order). -/
def trimGo : List Content → Nat → List Content → List Content
  | [], _, acc => acc
  | c :: rest, cur, acc =>
    if cur + contentSize c > 400000 then acc
    else trimGo rest (cur + contentSize c) (c :: acc)

/-- GeminiAgent._trimHistory as a function on histories. -/
def trimHistory (h : List Content) : List Content :=
  (trimGo h.reverse 0 []).dropWhile (fun c => c.role == "function")

/-! ## First-occurrence deduplication

`[...new Set(xs)]` keeps the first occurrence of each element, in order. -/

/-- Worker for dedupFirst; `seen` collects the elements already emitted. -/
def dedupGo (seen : List String) : List String → List String
  | [] => []
  | x :: xs =>
    if seen.contains x then dedupGo seen xs
    else x :: dedupGo (seen ++ [x]) xs

/-- `[...new Set(xs)]`. -/
def dedupFirst (xs : List String) : List String := dedupGo [] xs

/-! ## Regular-expression matching for the planning classifier

PlanningUtils (the second section of src/agent/GeminiAgent.ts) classifies
prompts with fixed case-insensitive regular expressions.  The patterns use
literals, the classes `\s` and `[- ]`, the word boundary `\b`, alternation,
optional groups, and `\s+`/`\s*`.  The engine below covers exactly those
constructs: a pattern is matched against the lowercased input, a star is only
ever applied to a character class (so matching is a plain structural
recursion), and `rtest` searches for a match starting at every position, as
`RegExp.prototype.test` does.  `\s` is modelled by the ASCII whitespace
characters (space, tab, newline, carriage return), which covers every input
considered in this development; `\b` uses the JavaScript word characters
(ASCII letters, digits, underscore). -/

/-- Pattern syntax: empty pattern, single character from a class, starred
character class, sequencing, alternation, word boundary. -/
inductive Rx where
  | eps
  | cls (cs : List Char)
  | starCls (cs : List Char)
  | seq (a b : Rx)
  | alt (a b : Rx)
  | wb

/-- JavaScript regexp word character (`\w`). -/
def isWordChar (c : Char) : Bool := c.isAlphanum || c = '_'

/-- Word boundary test between the previous character (none at the start of
the input) and the next character (none at the end). -/
def atBoundary (prev : Option Char) (next : Option Char) : Bool :=
  (match prev with | some c => isWordChar c | none => false) !=
    (match next with | some c => isWordChar c | none => false)

/-- All ways a starred class can consume a prefix of the input; each result
is the last character consumed so far paired with the remaining input. -/
def clsRuns (cs : List Char) : Option Char → List Char → List (Option Char × List Char)
  | p, [] => [(p, [])]
  | p, c :: rest =>
    (p, c :: rest) :: (if cs.contains c.toLower then clsRuns cs (some c) rest else [])

/-- All ways a pattern can match a prefix of the input, given the character
preceding the input. -/
def mrun : Rx → Option Char → List Char → List (Option Char × List Char)
  | .eps, p, s => [(p, s)]
  | .cls _, _, [] => []
  | .cls cs, _, c :: rest => if cs.contains c.toLower then [(some c, rest)] else []
  | .starCls cs, p, s => clsRuns cs p s
  | .seq a b, p, s => (mrun a p s).flatMap (fun q => mrun b q.1 q.2)
  | .alt a b, p, s => mrun a p s ++ mrun b p s
  | .wb, p, s => if atBoundary p s.head? then [(p, s)] else []

/-- Search for a match starting at any position, tracking the character
before the current position for word boundaries. -/
def rsearch (r : Rx) : Option Char → List Char → Bool
  | p, [] => !(mrun r p []).isEmpty
  | p, c :: rest => !(mrun r p (c :: rest)).isEmpty || rsearch r (some c) rest

/-- `pattern.test(s)` for a case-insensitive pattern. -/
def rtest (r : Rx) (s : String) : Bool := rsearch r none s.toList

/-- Pattern matching one literal character (patterns are written in
lowercase; the input is lowercased during matching). -/
def rchar (c : Char) : Rx := .cls [c]

/-- Pattern matching a literal string. -/
def rstr (s : String) : Rx := (s.toList.map rchar).foldr .seq .eps

/-- Optional group. -/
def ropt (r : Rx) : Rx := .alt r .eps

/-- The class `\s` (ASCII subset). -/
def wsC : List Char := [' ', '\t', '\n', '\r']

/-- The pattern `\s*`. -/
def wsStar : Rx := .starCls wsC

/-- The pattern `\s+`. -/
def wsPlus : Rx := .seq (.cls wsC) (.starCls wsC)

/-- Sequence of a list of patterns. -/
def rseq (l : List Rx) : Rx := l.foldr .seq .eps

/-- Alternation of a list of patterns. -/
def ralts : List Rx → Rx
  | [] => .eps
  | [r] => r
  | r :: rest => .alt r (ralts rest)

/-- The group `('s|us)` used by the two `let` patterns. -/
def sOrUs : Rx := ralts [rseq [rchar apos, rstr "s"], rstr "us"]

/-- PLANNING_PATTERNS of PlanningUtils, in source order. -/
def planningPatterns : List Rx := [
  rseq [.wb, rstr "plan", wsStar, ropt (rseq [rstr "this", wsPlus]),
    ralts [rstr "first", rstr "out", rstr "it"], .wb],
  rseq [.wb, rstr "create", wsPlus, ropt (rseq [rstr "a", wsPlus]), rstr "plan", .wb],
  rseq [.wb, rstr "outline", wsPlus, ropt (rseq [rstr "the", wsPlus]),
    ralts [rstr "approach", rstr "steps", rstr "plan"], .wb],
  rseq [.wb, rstr "what", ralts [rseq [rchar apos, rstr "s"], rseq [wsPlus, rstr "is"]],
    wsPlus, rstr "your", wsPlus, rstr "plan", .wb],
  rseq [.wb, rstr "show", wsPlus, ropt (rseq [rstr "me", wsPlus]),
    ropt (rseq [rstr "the", wsPlus]), rstr "plan", .wb],
  rseq [.wb, rstr "before", wsPlus, ropt (rseq [rstr "you", wsPlus]),
    ralts [rstr "start", rstr "begin", rstr "code", rstr "implement"]],
  rseq [.wb, rstr "plan", wsPlus, rstr "before", .wb],
  rseq [.wb, rstr "walk", wsPlus, rstr "me", wsPlus, rstr "through", .wb],
  rseq [.wb, rstr "let", sOrUs, wsPlus, ralts [rstr "see", rstr "review"], wsPlus,
    ropt (rseq [rstr "the", wsPlus]), rstr "plan", .wb],
  rseq [.wb, rstr "step", .cls ['-', ' '], rstr "by", .cls ['-', ' '], rstr "step",
    wsPlus, rstr "plan", .wb],
  rseq [.wb, rstr "planning", wsPlus, rstr "phase", .wb],
  rseq [.wb, rstr "planning", wsPlus, rstr "mode", .wb]]

/-- PlanningUtils.isPlanningRequest. -/
def isPlanningRequest (prompt : String) : Bool :=
  planningPatterns.any (fun r => rtest r prompt)

/-- APPROVAL_PATTERNS of PlanningUtils, in source order. -/
def approvalPatterns : List Rx := [
  rseq [.wb, ralts [rseq [rstr "look", ropt (rchar 's'), wsPlus, rstr "good"],
    rstr "lgtm"], .wb],
  rseq [.wb, ralts [rstr "proceed", rseq [rstr "go", wsPlus, rstr "ahead"],
    rseq [rstr "approve", ropt (rchar 'd')], rstr "continue"], .wb],
  rseq [.wb, ralts [rstr "yes", rstr "yep", rstr "yeah", rstr "yup", rstr "sure",
    rstr "ok", rstr "okay"], .wb],
  rseq [.wb, rstr "do", wsPlus, rstr "it", .wb],
  rseq [.wb, rstr "start", wsPlus,
    ralts [rstr "building", rstr "coding", rstr "implementing", rstr "working"], .wb],
  rseq [.wb, rstr "begin", .wb],
  rseq [.wb, rstr "execute", wsPlus, ropt (rseq [rstr "the", wsPlus]), rstr "plan", .wb],
  rseq [.wb, rstr "ship", wsPlus, rstr "it", .wb],
  rseq [.wb, rstr "let", sOrUs, wsPlus,
    ralts [rstr "go", rseq [rstr "do", wsPlus, rstr "it"], rstr "start"], .wb],
  rseq [.wb, rstr "make", wsPlus, rstr "it", wsPlus, ralts [rstr "so", rstr "happen"], .wb]]

/-- Characters removed by `String.prototype.trim` (ASCII subset, matching
the whitespace model used for `\s`). -/
def trimChars (l : List Char) : List Char :=
  ((l.dropWhile (fun c => wsC.contains c)).reverse.dropWhile
    (fun c => wsC.contains c)).reverse

/-- `s.trim()` on the character list model. -/
def strTrim (s : String) : String := String.mk (trimChars s.toList)

/-- Number of fields of `t.split(/\s+/)` for a trimmed nonempty `t`: the
number of maximal runs of non-whitespace characters.  The flag records
whether the previous character belonged to a word. -/
def countWords : List Char → Bool → Nat
  | [], _ => 0
  | c :: rest, inWord =>
    if wsC.contains c then countWords rest false
    else (if inWord then 0 else 1) + countWords rest true

/-- Word count used by isPlanApproval: `prompt.trim().split(/\s+/).length`.
Splitting the empty string yields one (empty) field; after trimming, interior
whitespace runs separate the words. -/
def wordCount (s : String) : Nat :=
  let t := trimChars s.toList
  if t.isEmpty then 1 else countWords t false

/-- PlanningUtils.isPlanApproval: short messages (five words or fewer) that
match an approval pattern. -/
def isPlanApproval (prompt : String) : Bool :=
  decide (wordCount prompt ≤ 5) && approvalPatterns.any (fun r => rtest r prompt)

/-! ## Tool registry (the ToolRegistry section of src/tools/VercelTool.ts)

A registered tool is its name, its description and its bound execute
function.  The execute function is a parameter of the model: the real
implementations shell out or talk to MCP subprocess servers.  It receives the
tool arguments and the current agent history and returns either a thrown
fault (Except.error) or a ToolResult, along with the history after the call;
the history component models the onReset callback a tool may invoke (tools
that do not touch agent memory return it unchanged). -/

/-- The behavior of one bound tool execute function. -/
def ToolExec := JVal → List Content → (Except String ToolResult) × List Content

/-- A registry entry: AgentTool restricted to the fields the registry uses. -/
structure RegTool where
  name : String
  description : String
  exec : ToolExec

/-- ToolRegistry._registerTool over the insertion-ordered Map model:
registering an existing name overwrites in place (a warning is logged),
otherwise the tool is appended. -/
def mapSet (m : List RegTool) (t : RegTool) : List RegTool :=
  if m.any (fun u => u.name == t.name) then
    m.map (fun u => if u.name == t.name then t else u)
  else m ++ [t]

/-- Name of the shell tool created by createShellTool (ShellTool.ts). -/
def shellToolName : String := "run_terminal_command"

/-- The shell tool registered by _registerInternalTools, with its execute
behavior as a parameter (it runs a process on the host). -/
def mkShellTool (exec : ToolExec) : RegTool :=
  { name := shellToolName,
    description := "Execute a terminal command in the workspace. Use this to run npm, git, build commands, and other CLI tools. The command runs in the current project directory by default.",
    exec := exec }

/-- ToolRegistry._registerInternalTools: registers the shell tool (and only
the shell tool) bound to the working directory. -/
def registerInternalTools (m : List RegTool) (shellExec : ToolExec) : List RegTool :=
  mapSet m (mkShellTool shellExec)

/-- ToolRegistry.initialize: register the tools discovered from the MCP
manager in order, then the internal tools.  The MCP tools and the shell
behavior are parameters (they come from subprocess servers and the host). -/
def registryInitialize (mcpTools : List RegTool) (shellExec : ToolExec) : List RegTool :=
  registerInternalTools (mcpTools.foldl mapSet []) shellExec

/-- ToolRegistry.executeTool: unknown names yield a failure result without
invoking anything; a thrown fault from the tool is caught and converted to a
failure result carrying the fault message. -/
def executeToolReg (tools : List RegTool) (name : String) (args : JVal)
    (h : List Content) : ToolResult × List Content :=
  match tools.find? (fun t => t.name == name) with
  | none => (errorResult ("Unknown tool: " ++ name), h)
  | some t =>
    match t.exec args h with
    | (.ok r, h2) => (r, h2)
    | (.error msg, h2) => (errorResult ("Tool execution failed: " ++ msg), h2)

/-- GeminiAgent._executeTool formats the registry result for the Gemini
function response: `{ success, data, ...(error ? { error } : {}) }` — a falsy
(absent or empty) error string is omitted.  Its own catch block is
unreachable, because executeToolReg never throws. -/
def formatForGemini (r : ToolResult) : ToolResult :=
  { success := r.success, data := r.data,
    error := match r.error with
      | some e => if e.isEmpty then none else some e
      | none => none }

/-- GeminiAgent._executeTool (the registry is present whenever the agent is
initialized). -/
def agentExecuteTool (tools : List RegTool) (toolName : String) (args : JVal)
    (h : List Content) : ToolResult × List Content :=
  let p := executeToolReg tools toolName args h
  (formatForGemini p.1, p.2)

/-! ## Gemini responses and their extraction (GeminiAgent) -/

/-- The content of a response candidate; `parts` is optional in the SDK. -/
structure CandContent where
  parts : Option (List Part)

/-- One response candidate; `content` is optional. -/
structure Candidate where
  content : Option CandContent

/-- A GenerateContentResponse restricted to the field the agent reads;
`candidates` is optional. -/
structure GenResponse where
  candidates : Option (List Candidate)

/-- GeminiAgent._extractFunctionCalls: all functionCall parts of the first
candidate, in order; missing candidates, content or parts yield the empty
list. -/
def extractFunctionCalls (r : GenResponse) : List FunctionCall :=
  match r.candidates with
  | none => []
  | some [] => []
  | some (c :: _) =>
    match c.content with
    | none => []
    | some cc =>
      match cc.parts with
      | none => []
      | some ps => ps.filterMap (fun p =>
          match p with
          | .functionCall fc => some fc
          | _ => none)

/-- GeminiAgent._extractTextResponse: the nonempty text parts of the first
candidate joined with newlines, with the fixed fallback strings of the
source. -/
def extractTextResponse (r : GenResponse) : String :=
  match r.candidates with
  | none => "I was unable to generate a response."
  | some [] => "I was unable to generate a response."
  | some (c :: _) =>
    match c.content with
    | none => "I was unable to generate a response."
    | some cc =>
      match cc.parts with
      | none => "I was unable to generate a response."
      | some ps =>
        let textParts := ps.filterMap (fun p =>
          match p with
          | .text s => if s.isEmpty then none else some s
          | _ => none)
        let joined := String.intercalate "\n" textParts
        if joined.isEmpty then "Task completed." else joined

/-! ## The agent execution core (GeminiAgent.execute) -/

/-- The environment of one agent: the LLM backend (a function from the
history sent to generateContent to a thrown fault or a response — the system
instruction and tool schema list are fixed per agent and folded into the
function), the registered tools, and the configured maximum iteration
count. -/
structure Env where
  gen : List Content → Except String GenResponse
  tools : List RegTool
  maxIterations : Nat

/-- The mutable state of a GeminiAgent instance. -/
structure AgentState where
  history : List Content
  isInitialized : Bool
  isPlanningMode : Bool
  workingDirectory : String

/-- AgentResult of GeminiAgent.execute. -/
structure AgentResult where
  success : Bool
  response : String
  toolCallCount : Nat
  toolsUsed : List String
  error : Option String

/-- The state threaded through the agentic loop: the history (the field of
the agent), the planning flag (read each iteration, never written inside the
loop), and the local accumulators toolCallCount and toolsUsed, which the
catch block also reads. -/
structure LoopSt where
  history : List Content
  planning : Bool
  toolCallCount : Nat
  toolsUsed : List String

/-- The output of one round of tool dispatches (the for-loop over
functionCalls): the collected functionResponse parts, the history after the
round, the updated counters, and the historyWasCleared flag. -/
structure BatchOut where
  parts : List Part
  history : List Content
  count : Nat
  used : List String
  cleared : Bool

/-- The for-loop over one batch of function calls: each call increments the
counter, records the tool name (`fc.name ?? "unknown"`), dispatches through
the registry, checks whether the history became empty, and records a
functionResponse part carrying `fc.name` and the formatted result. -/
def runBatch (tools : List RegTool) :
    List FunctionCall → List Content → Nat → List String → Bool → BatchOut
  | [], h, cnt, used, cleared =>
    { parts := [], history := h, count := cnt, used := used, cleared := cleared }
  | fc :: rest, h, cnt, used, cleared =>
    let toolName := fc.name.getD "unknown"
    let r := agentExecuteTool tools toolName fc.args h
    let cleared2 := cleared || r.2.isEmpty
    let out := runBatch tools rest r.2 (cnt + 1) (used ++ [toolName]) cleared2
    { out with parts := Part.functionResponse fc.name r.1 :: out.parts }

/-- The response text of the max-iterations exit. -/
def maxStepsResponse : String :=
  "I" ++ aposS ++ "ve reached the maximum number of steps for this task. Here" ++
    aposS ++ "s what I" ++ aposS ++
    "ve accomplished so far. Please provide additional guidance if needed."

/-- The result returned when the loop exhausts maxIterations. -/
def maxIterResult (cnt : Nat) (used : List String) : AgentResult :=
  { success := false, response := maxStepsResponse, toolCallCount := cnt,
    toolsUsed := dedupFirst used, error := some "Maximum iterations reached" }

/-- The placeholder model entry pushed when planning mode blocks tool calls
and the response has no usable text. -/
def planPlaceholder : String :=
  "Let me create a detailed plan for you first before starting implementation."

/-- The message returned when a tool cleared the history mid-batch. -/
def memoryClearedResponse : String := "Memory cleared successfully. Starting fresh."

/-- The main agentic loop of GeminiAgent.execute (the while over
iterations), with the remaining iteration budget as fuel.  Each iteration
trims the history, calls the backend (a thrown fault propagates to the catch
as Except.error, keeping the state mutated so far), extracts the function
calls, and takes the planning-suppression, text-only or tool-batch branch of
the source. -/
def execLoop (env : Env) : Nat → LoopSt → (Except String AgentResult) × LoopSt
  | 0, st => (.ok (maxIterResult st.toolCallCount st.toolsUsed), st)
  | Nat.succ fuel, st =>
    let h := trimHistory st.history
    let st1 : LoopSt := { st with history := h }
    match env.gen h with
    | .error msg => (.error msg, st1)
    | .ok resp =>
      let fcs := extractFunctionCalls resp
      if st1.planning && !fcs.isEmpty then
        let textResponse := extractTextResponse resp
        if !(strTrim textResponse).isEmpty then
          (.ok { success := true, response := textResponse, toolCallCount := 0,
                 toolsUsed := [], error := none },
           { st1 with history := h ++ [⟨"model", [Part.text textResponse]⟩] })
        else
          execLoop env fuel
            { st1 with history := h ++ [⟨"model", [Part.text planPlaceholder]⟩] }
      else if fcs.isEmpty then
        let textResponse := extractTextResponse resp
        (.ok { success := true, response := textResponse,
               toolCallCount := st1.toolCallCount,
               toolsUsed := dedupFirst st1.toolsUsed, error := none },
         { st1 with history := h ++ [⟨"model", [Part.text textResponse]⟩] })
      else
        let b := runBatch env.tools fcs h st1.toolCallCount st1.toolsUsed false
        if b.cleared then
          (.ok { success := true, response := memoryClearedResponse,
                 toolCallCount := b.count, toolsUsed := dedupFirst b.used,
                 error := none },
           { st1 with
             history := b.history, toolCallCount := b.count,
             toolsUsed := b.used })
        else
          execLoop env fuel
            { st1 with
              history := b.history ++
                [⟨"model", fcs.map Part.functionCall⟩, ⟨"user", b.parts⟩],
              toolCallCount := b.count, toolsUsed := b.used }

/-- The user-role system-context entry injected when the history is empty. -/
def bootstrapUser (wd : String) : Content :=
  ⟨"user", [Part.text ("[System Context: You are currently working in the project directory: " ++
    wd ++ ". All file operations and commands should be relative to this directory unless otherwise specified.]")]⟩

/-- The model-role acknowledgment injected after the system-context entry. -/
def bootstrapModel (wd : String) : Content :=
  ⟨"model", [Part.text ("Understood. I" ++ aposS ++
    "m now working in the project directory: " ++ wd ++ ". I" ++ aposS ++
    "ll use this as my base for all file operations and commands. How can I help you with this project?")]⟩

/-- PLANNING_INSTRUCTIONS of PlanningUtils, appended to a planning-triggering
prompt. -/
def PLANNING_INSTRUCTIONS : String :=
  "\nPLANNING PHASE ACTIVATED:\nThe user has requested a planning phase before execution. You MUST:\n\n1. DO NOT execute any tools yet - only create a plan first\n2. Analyze the user" ++
    aposS ++
    "s request thoroughly\n3. Create a detailed, numbered implementation plan that includes:\n   - Project structure (files and directories to create)\n   - Technologies and libraries to use\n   - Step-by-step implementation order\n   - Key features and their implementation approach\n   - Potential challenges and how you" ++
    aposS ++
    "ll address them\n4. Present the plan to the user in a clear, readable format\n5. Ask for the user" ++
    aposS ++
    "s approval or feedback on the plan\n6. WAIT for the user to respond with approval (e.g., \"looks good\", \"proceed\", \"go ahead\", \"approved\")\n7. Only after explicit approval, begin executing the plan\n\nFormat your plan like this:\n\n## 📋 Implementation Plan\n\n### Project Structure\n```\nproject-name/\n├── index.html\n├── styles.css\n└── script.js\n```\n\n### Technologies\n- List of technologies and why\n\n### Implementation Steps\n1. First step - description\n2. Second step - description\n...\n\n### Potential Challenges\n- Challenge 1 and mitigation\n- Challenge 2 and mitigation\n\n---\n**Please review this plan and let me know if you" ++
    aposS ++
    "d like any changes, or say \"proceed\" to begin implementation.**\n"

/-- The planning-gate update of execute (steps at lines 266-281 of
GeminiAgent.ts): a planning request turns the mode on; an approval while the
mode is on (and the prompt is not itself a planning request) turns it off. -/
def planningAfter (cur : Bool) (p : String) : Bool :=
  let wantsPlan := isPlanningRequest p
  let m1 := if wantsPlan && !cur then true else cur
  if m1 && !wantsPlan && isPlanApproval p then false else m1

/-- The history at the start of the agentic loop: the bootstrap pair is
injected when the history is empty, then the (possibly planning-augmented)
prompt is appended as a user entry. -/
def preLoopHistory (s : AgentState) (p : String) : List Content :=
  let wantsPlan := isPlanningRequest p
  let planning2 := planningAfter s.isPlanningMode p
  let hist1 :=
    if s.history.isEmpty then
      [bootstrapUser s.workingDirectory, bootstrapModel s.workingDirectory]
    else s.history
  let effectivePrompt :=
    if planning2 && wantsPlan then p ++ "\n\n" ++ PLANNING_INSTRUCTIONS else p
  hist1 ++ [⟨"user", [Part.text effectivePrompt]⟩]

/-- The result of the reject-uninitialized guard. -/
def notInitializedResult : AgentResult :=
  { success := false, response := "", toolCallCount := 0, toolsUsed := [],
    error := some "Agent not initialized. Call initialize() first." }

/-- The prefix of the response built by the catch block of execute. -/
def catchPrefix : String := "I encountered an error while processing your request: "

/-- GeminiAgent.execute.  The function is total: a thrown fault inside the
loop surfaces as the Except.error branch and is converted to a failure
result, the state mutated so far being kept (the catch block of the
source).  The schema export getFunctionDeclarations cannot throw and does
not influence the control flow modelled here, so it is not represented. -/
def execute (env : Env) (s : AgentState) (p : String) : AgentResult × AgentState :=
  if !s.isInitialized then (notInitializedResult, s)
  else
    let planning2 := planningAfter s.isPlanningMode p
    match execLoop env env.maxIterations
      { history := preLoopHistory s p, planning := planning2,
        toolCallCount := 0, toolsUsed := [] } with
    | (.ok r, lst) =>
      (r, { s with history := lst.history, isPlanningMode := planning2 })
    | (.error msg, lst) =>
      ({ success := false, response := catchPrefix ++ msg,
         toolCallCount := lst.toolCallCount,
         toolsUsed := dedupFirst lst.toolsUsed, error := some msg },
       { s with history := lst.history, isPlanningMode := planning2 })

/-- GeminiAgent.clearHistory. -/
def clearHistory (s : AgentState) : AgentState := { s with history := [] }

/-- GeminiAgent.setWorkingDirectory: stores the new directory without any
validation. -/
def agentSetWorkingDirectory (s : AgentState) (directory : String) : AgentState :=
  { s with workingDirectory := directory }

/-! ## Session manager (src/agent/Session.ts) -/

/-- `a.startsWith(b)` on the character-list model of strings. -/
def strStartsWith (s pre : String) : Bool := pre.toList.isPrefixOf s.toList

/-- Split a character list on a separator character (`path.sep`). -/
def splitOnChar (sep : Char) : List Char → List (List Char)
  | [] => [[]]
  | c :: rest =>
    let r := splitOnChar sep rest
    if c = sep then [] :: r
    else
      match r with
      | [] => [[c]]
      | w :: ws => (c :: w) :: ws

/-- Model of Node `path.resolve` for the paths this development uses: a
relative path is resolved against a root working directory of `/`, then `.`
and empty components are dropped and `..` pops one component. -/
def pathResolve (p : String) : String :=
  let q := if strStartsWith p "/" then p.toList else '/' :: p.toList
  let comps := (splitOnChar '/' q).foldl
    (fun acc c =>
      if c = [] ∨ c = ['.'] then acc
      else if c = ['.', '.'] then acc.dropLast
      else acc ++ [c]) []
  String.mk ('/' :: (comps.intersperse ['/']).flatten)

/-- SessionData restricted to the fields setWorkingDirectory touches. -/
structure SessionData where
  userId : String
  workingDirectory : String

/-- SessionManager.setWorkingDirectory for one session: the directory and
the workspace root are resolved; a resolved directory that does not start
with the resolved workspace is rejected (returning false and leaving the
session unchanged), otherwise the resolved directory is stored. -/
def sessionSetWorkingDirectory (workspaceRoot : String) (sess : SessionData)
    (directory : String) : Bool × SessionData :=
  let normalizedDir := pathResolve directory
  let normalizedWorkspace := pathResolve workspaceRoot
  if !(strStartsWith normalizedDir normalizedWorkspace) then (false, sess)
  else (true, { sess with workingDirectory := normalizedDir })

/-! ## MCP schema sanitization (McpManager._sanitizeSchemaForGemini) -/

/-- The fixed denylist of JSON-Schema keys stripped for Gemini, in source
order. -/
def unsupportedProperties : List String := [
  "exclusiveMinimum", "exclusiveMaximum", "$schema", "additionalProperties",
  "patternProperties", "allOf", "anyOf", "oneOf", "not", "if", "then", "else",
  "dependentSchemas", "dependentRequired", "unevaluatedProperties",
  "unevaluatedItems", "contentEncoding", "contentMediaType", "contentSchema",
  "default", "deprecated", "readOnly", "writeOnly", "examples", "$id", "$ref",
  "$defs", "definitions", "$comment", "$anchor", "$dynamicRef",
  "$dynamicAnchor"]

mutual
/-- The inner `sanitize` closure of _sanitizeSchemaForGemini on values:
primitives are returned unchanged, arrays are sanitized elementwise, objects
drop denylisted keys and recurse into the remaining values. -/
def sanitizeJ : JVal → JVal
  | .str s => .str s
  | .num n => .num n
  | .bool b => .bool b
  | .null => .null
  | .arr a => .arr (sanitizeArr a)
  | .obj o => .obj (sanitizeObj o)

/-- Elementwise sanitization of an array, preserving order and length. -/
def sanitizeArr : JArr → JArr
  | .nil => .nil
  | .cons v rest => .cons (sanitizeJ v) (sanitizeArr rest)

/-- Entrywise sanitization of an object: denylisted keys are skipped, other
entries keep their key and recurse into the value. -/
def sanitizeObj : JObj → JObj
  | .nil => .nil
  | .cons k v rest =>
    if unsupportedProperties.contains k then sanitizeObj rest
    else .cons k (sanitizeJ v) (sanitizeObj rest)
end

mutual
/-- A value is clean when no object at any depth uses a denylisted key. -/
def cleanJ : JVal → Bool
  | .str _ => true
  | .num _ => true
  | .bool _ => true
  | .null => true
  | .arr a => cleanArr a
  | .obj o => cleanObj o

/-- Cleanliness of every element of an array. -/
def cleanArr : JArr → Bool
  | .nil => true
  | .cons v rest => cleanJ v && cleanArr rest

/-- Cleanliness of an object: no entry uses a denylisted key and every value
is clean. -/
def cleanObj : JObj → Bool
  | .nil => true
  | .cons k v rest =>
    !(unsupportedProperties.contains k) && cleanJ v && cleanObj rest
end

/-- The keys of an object, in order. -/
def objKeys : JObj → List String
  | .nil => []
  | .cons k _ rest => k :: objKeys rest

/-- The length of an array. -/
def arrLen : JArr → Nat
  | .nil => 0
  | .cons _ rest => 1 + arrLen rest

/-- A history entry is a tool-result entry when it is nonempty and all of
its parts are function responses (the shape of the entries the loop appends
after a batch of tool dispatches). -/
def isToolResultEntry (c : Content) : Bool :=
  !c.parts.isEmpty && c.parts.all (fun p =>
    match p with
    | .functionResponse _ _ => true
    | _ => false)

/-! # Claims -/

/-! ## C8: the reject-uninitialized guard -/

/-- C8: if the agent has not completed initialization, execute returns the
fixed failure result (success false, an error message) immediately and the
agent state — in particular the conversation history — is exactly the state
before the call. -/
theorem execute_uninitialized_guard (env : Env) (s : AgentState) (p : String)
    (hinit : s.isInitialized = false) :
    execute env s p = (notInitializedResult, s) := by
  unfold execute
  rw [hinit]
  rfl

/-- Witness for C8 at a concrete uninitialized agent. -/
theorem execute_uninitialized_guard_witness :
    execute ⟨fun _ => .error "e", [], 1⟩ ⟨[], false, false, "/w"⟩ "hi" =
      (notInitializedResult, ⟨[], false, false, "/w"⟩) :=
  execute_uninitialized_guard ⟨fun _ => .error "e", [], 1⟩ ⟨[], false, false, "/w"⟩ "hi" rfl

/-! ## C10: clearHistory followed by execute reproduces the bootstrap pair -/

/-- C10: after clearHistory, the next execute call starts its loop history
with exactly the same two-entry bootstrap pair (the directory-grounding
user entry and the model acknowledgment) as the first execute call of a
brand-new initialized agent with the same working directory. -/
theorem clear_then_execute_bootstrap_pair (s : AgentState) (p : String) :
    (preLoopHistory (clearHistory s) p).take 2 =
      [bootstrapUser s.workingDirectory, bootstrapModel s.workingDirectory] ∧
    (preLoopHistory ⟨[], true, false, s.workingDirectory⟩ p).take 2 =
      [bootstrapUser s.workingDirectory, bootstrapModel s.workingDirectory] := by
  constructor <;> rfl

/-! ## C4: the internal tools actually registered -/

/-- C4: after ToolRegistry.initialize with no MCP tools, the catalog holds
exactly the shell tool; the git-history, Vercel-deployment and reset tools
are not registered (their factories exist in the repository but
_registerInternalTools never calls them). -/
theorem registry_internal_tools_code_bug (shellExec : ToolExec) :
    (registryInitialize [] shellExec).map (fun t => t.name) = [shellToolName] ∧
    ((registryInitialize [] shellExec).map (fun t => t.name)).contains
      "get_git_history" = false ∧
    ((registryInitialize [] shellExec).map (fun t => t.name)).contains
      "deploy_to_vercel" = false ∧
    ((registryInitialize [] shellExec).map (fun t => t.name)).contains
      "reset_memory" = false :=
  ⟨rfl, rfl, rfl, rfl⟩

/-! ## C6: working-directory validation -/

/-- C6 counterexample: GeminiAgent.setWorkingDirectory stores a directory
outside the workspace root without re-validation, so the claimed invariant
fails at the agent-level mutation. -/
theorem setWorkingDirectory_unvalidated_counterexample :
    (agentSetWorkingDirectory ⟨[], true, false, "/app/workspace"⟩ "/etc").workingDirectory
      = "/etc" ∧
    strStartsWith "/etc" "/app/workspace" = false :=
  ⟨rfl, by decide⟩

/-- C6 amended: only the session-level mutation re-validates.  If the stored
session working directory starts with the resolved workspace root, then after
any SessionManager.setWorkingDirectory call it still does; moreover a
rejected call (returning false) leaves the session unchanged. -/
theorem session_wd_validation_amended (workspaceRoot : String) (sess : SessionData)
    (d : String)
    (hinv : strStartsWith sess.workingDirectory (pathResolve workspaceRoot) = true) :
    strStartsWith ((sessionSetWorkingDirectory workspaceRoot sess d).2).workingDirectory
      (pathResolve workspaceRoot) = true ∧
    ((sessionSetWorkingDirectory workspaceRoot sess d).1 = false →
      (sessionSetWorkingDirectory workspaceRoot sess d).2 = sess) := by
  unfold sessionSetWorkingDirectory
  cases hc : strStartsWith (pathResolve d) (pathResolve workspaceRoot) <;>
    simp [hc, hinv]

/-- Witness for C6 amended at a concrete session and directory. -/
theorem session_wd_validation_amended_witness :
    strStartsWith
      ((sessionSetWorkingDirectory "/app/workspace" ⟨"u", "/app/workspace"⟩
        "/app/workspace/proj").2).workingDirectory
      (pathResolve "/app/workspace") = true ∧
    ((sessionSetWorkingDirectory "/app/workspace" ⟨"u", "/app/workspace"⟩
        "/app/workspace/proj").1 = false →
      (sessionSetWorkingDirectory "/app/workspace" ⟨"u", "/app/workspace"⟩
        "/app/workspace/proj").2 = ⟨"u", "/app/workspace"⟩) :=
  session_wd_validation_amended "/app/workspace" ⟨"u", "/app/workspace"⟩
    "/app/workspace/proj" (by decide)

/-! ## C2: a tool whose execute throws -/

/-- The concrete throwing tool used to refute and witness C2. -/
def c2tool : RegTool := ⟨"mytool", "a test tool", fun _ h => (.error "boom", h)⟩

/-- C2 counterexample: dispatching a registered tool whose execute throws
yields a failure result whose error message carries the fault text but does
not contain the tool name — the registry catch formats it as
`Tool execution failed: <fault>`, and the name-including format of
GeminiAgent._executeTool is unreachable because the registry never throws. -/
theorem tool_throw_message_counterexample :
    (executeToolReg [c2tool] "mytool" JVal.null []).1 =
      { success := false, data := JVal.null,
        error := some "Tool execution failed: boom" } ∧
    ¬ ("mytool".toList <:+: "Tool execution failed: boom".toList) :=
  ⟨rfl, by decide⟩

/-- C2 amended: a registered tool whose execute throws yields a
failure-tagged ToolResult whose error message contains the underlying fault
text (prefixed `Tool execution failed: `), though not necessarily the tool
name; and the loop never aborts because of tool faults — whenever the LLM
backend itself does not throw, execLoop always returns a result instead of
propagating an exception, whatever the tools do. -/
theorem tool_throw_contained_amended :
    (∀ (tools : List RegTool) (n : String) (t : RegTool) (args : JVal)
        (h h2 : List Content) (msg : String),
      tools.find? (fun u => u.name == n) = some t →
      t.exec args h = (.error msg, h2) →
      executeToolReg tools n args h =
        (errorResult ("Tool execution failed: " ++ msg), h2) ∧
      msg.toList <:+: ("Tool execution failed: " ++ msg).toList) ∧
    (∀ env : Env, (∀ hist, ∃ resp, env.gen hist = .ok resp) →
      ∀ (fuel : Nat) (st : LoopSt), ∃ r lst, execLoop env fuel st = (.ok r, lst)) := by
  constructor
  · intro tools n t args h h2 msg hfind hexec
    constructor
    · unfold executeToolReg
      rw [hfind]
      show (match t.exec args h with
        | (Except.ok r, h2) => (r, h2)
        | (Except.error msg, h2) =>
          (errorResult ("Tool execution failed: " ++ msg), h2)) = _
      rw [hexec]
    · have : ("Tool execution failed: " ++ msg).toList =
          "Tool execution failed: ".toList ++ msg.toList := by
        simp [String.toList, String.data_append]
      rw [this]
      exact (List.suffix_append _ _).isInfix
  · intro env hgen fuel
    induction fuel with
    | zero => intro st; exact ⟨_, _, rfl⟩
    | succ fuel ih =>
      intro st
      obtain ⟨resp, hresp⟩ := hgen (trimHistory st.history)
      unfold execLoop
      dsimp only
      rw [hresp]
      dsimp only
      split
      · split
        · exact ⟨_, _, rfl⟩
        · exact ih _
      · split
        · exact ⟨_, _, rfl⟩
        · split
          · exact ⟨_, _, rfl⟩
          · exact ih _

/-- Witness for C2 amended: the throwing tool is contained at dispatch, and
a loop over an always-throwing tool still returns a result. -/
theorem tool_throw_contained_amended_witness :
    (executeToolReg [c2tool] "mytool" JVal.null [] =
      (errorResult ("Tool execution failed: " ++ "boom"), []) ∧
     "boom".toList <:+: ("Tool execution failed: " ++ "boom").toList) ∧
    (∃ r lst,
      execLoop
        ⟨fun _ => .ok ⟨some [⟨some ⟨some [Part.functionCall ⟨some "mytool", JVal.null⟩]⟩⟩]⟩,
         [c2tool], 1⟩ 1 ⟨[⟨"user", [Part.text "x"]⟩], false, 0, []⟩ = (.ok r, lst)) :=
  ⟨tool_throw_contained_amended.1 [c2tool] "mytool" c2tool JVal.null [] [] "boom"
      rfl rfl,
   tool_throw_contained_amended.2
      ⟨fun _ => .ok ⟨some [⟨some ⟨some [Part.functionCall ⟨some "mytool", JVal.null⟩]⟩⟩]⟩,
       [c2tool], 1⟩ (fun _ => ⟨_, rfl⟩) 1 ⟨[⟨"user", [Part.text "x"]⟩], false, 0, []⟩⟩

/-! ## C1: the public execute boundary converts faults to failure results -/

/-- C1: execute is a total function (so it never propagates an exception to
its caller — tool faults are already contained by the registry, and the only
remaining fault source, the LLM call, surfaces as the Except.error branch of
the loop); whenever the loop raises a fault, execute returns a result with
success = false whose error field is exactly the fault message and whose
response embeds it, and the agent keeps the history exactly as the loop had
mutated it up to the fault (no rollback). -/
theorem execute_catches_faults (env : Env) (s : AgentState) (p : String)
    (msg : String) (lst : LoopSt)
    (hinit : s.isInitialized = true)
    (hrun : execLoop env env.maxIterations
      { history := preLoopHistory s p,
        planning := planningAfter s.isPlanningMode p,
        toolCallCount := 0, toolsUsed := [] } = (.error msg, lst)) :
    execute env s p =
      ({ success := false, response := catchPrefix ++ msg,
         toolCallCount := lst.toolCallCount,
         toolsUsed := dedupFirst lst.toolsUsed, error := some msg },
       { s with history := lst.history,
                isPlanningMode := planningAfter s.isPlanningMode p }) ∧
    msg.toList <:+: (catchPrefix ++ msg).toList := by
  constructor
  · simp only [execute, hinit, Bool.not_true, Bool.false_eq_true, if_false]
    rw [hrun]
  · have hsplit : (catchPrefix ++ msg).toList = catchPrefix.toList ++ msg.toList := by
      simp [String.toList, String.data_append]
    rw [hsplit]
    exact (List.suffix_append _ _).isInfix

/-- The concrete environment used to witness C1: the backend throws. -/
def c1env : Env := ⟨fun _ => .error "network down", [], 3⟩

/-- The concrete initialized agent used to witness C1. -/
def c1state : AgentState := ⟨[], true, false, "/w"⟩

/-- Witness for C1: at a backend that throws on the first call, execute
returns the failure result carrying the fault message, with the history as
mutated up to the fault (bootstrap pair and user turn, trimmed). -/
theorem execute_catches_faults_witness :
    execute c1env c1state "hi" =
      ({ success := false, response := catchPrefix ++ "network down",
         toolCallCount := 0, toolsUsed := [], error := some "network down" },
       { c1state with
         history := trimHistory (preLoopHistory c1state "hi"),
         isPlanningMode := planningAfter c1state.isPlanningMode "hi" }) ∧
    "network down".toList <:+: (catchPrefix ++ "network down").toList :=
  execute_catches_faults c1env c1state "hi" "network down"
    ⟨trimHistory (preLoopHistory c1state "hi"), false, 0, []⟩ rfl rfl

/-! ## C7: recursive schema sanitization -/

mutual
theorem sanitize_clean_j : (v : JVal) → cleanJ (sanitizeJ v) = true
  | .str _ => rfl
  | .num _ => rfl
  | .bool _ => rfl
  | .null => rfl
  | .arr a => by simpa [sanitizeJ, cleanJ] using sanitize_clean_arr a
  | .obj o => by simpa [sanitizeJ, cleanJ] using sanitize_clean_obj o

theorem sanitize_clean_arr : (a : JArr) → cleanArr (sanitizeArr a) = true
  | .nil => rfl
  | .cons v rest => by
    simp [sanitizeArr, cleanArr, sanitize_clean_j v, sanitize_clean_arr rest]

theorem sanitize_clean_obj : (o : JObj) → cleanObj (sanitizeObj o) = true
  | .nil => rfl
  | .cons k v rest => by
    by_cases hk : k ∈ unsupportedProperties
    · simp [sanitizeObj, hk, sanitize_clean_obj rest]
    · simp [sanitizeObj, cleanObj, hk, sanitize_clean_j v, sanitize_clean_obj rest]
end

mutual
theorem sanitize_id_j : (v : JVal) → cleanJ v = true → sanitizeJ v = v
  | .str _, _ => rfl
  | .num _, _ => rfl
  | .bool _, _ => rfl
  | .null, _ => rfl
  | .arr a, h => by
    simp only [cleanJ] at h
    simp [sanitizeJ, sanitize_id_arr a h]
  | .obj o, h => by
    simp only [cleanJ] at h
    simp [sanitizeJ, sanitize_id_obj o h]

theorem sanitize_id_arr : (a : JArr) → cleanArr a = true → sanitizeArr a = a
  | .nil, _ => rfl
  | .cons v rest, h => by
    simp only [cleanArr, Bool.and_eq_true] at h
    simp [sanitizeArr, sanitize_id_j v h.1, sanitize_id_arr rest h.2]

theorem sanitize_id_obj : (o : JObj) → cleanObj o = true → sanitizeObj o = o
  | .nil, _ => rfl
  | .cons k v rest, h => by
    simp only [cleanObj, Bool.and_eq_true, Bool.not_eq_true'] at h
    have hk : k ∉ unsupportedProperties := by simpa using h.1.1
    simp [sanitizeObj, hk, sanitize_id_j v h.1.2, sanitize_id_obj rest h.2]
end

/-- Sanitization drops exactly the denylisted keys of each object,
preserving the order of the remaining keys. -/
theorem sanitize_keys : (o : JObj) →
    objKeys (sanitizeObj o) = (objKeys o).filter (fun k => !(unsupportedProperties.contains k))
  | .nil => rfl
  | .cons k v rest => by
    by_cases hk : k ∈ unsupportedProperties
    · simp [sanitizeObj, objKeys, hk, sanitize_keys rest]
    · simp [sanitizeObj, objKeys, hk, sanitize_keys rest]

/-- Sanitization preserves array lengths. -/
theorem sanitize_len : (a : JArr) → arrLen (sanitizeArr a) = arrLen a
  | .nil => rfl
  | .cons v rest => by simp [sanitizeArr, arrLen, sanitize_len rest]

/-- C7: _sanitizeSchemaForGemini removes exactly the denylisted keys from
every nested object at every depth (the result is clean, and a clean input
passes through unchanged, so nothing but denylisted keys is removed), the
surviving keys of each object keep their order, arrays keep their length,
and array elements are sanitized elementwise in place. -/
theorem sanitize_schema_spec :
    (∀ v : JVal, cleanJ (sanitizeJ v) = true) ∧
    (∀ v : JVal, cleanJ v = true → sanitizeJ v = v) ∧
    (∀ o : JObj, objKeys (sanitizeObj o) =
      (objKeys o).filter (fun k => !(unsupportedProperties.contains k))) ∧
    (∀ a : JArr, arrLen (sanitizeArr a) = arrLen a) ∧
    (∀ (v : JVal) (rest : JArr),
      sanitizeArr (.cons v rest) = .cons (sanitizeJ v) (sanitizeArr rest)) :=
  ⟨sanitize_clean_j, sanitize_id_j, sanitize_keys, sanitize_len, fun _ _ => rfl⟩

/-- Witness for C7 at a concrete clean schema value. -/
theorem sanitize_schema_spec_witness :
    cleanJ (JVal.obj (.cons "type" (.str "object") .nil)) = true ∧
    sanitizeJ (JVal.obj (.cons "type" (.str "object") .nil)) =
      JVal.obj (.cons "type" (.str "object") .nil) :=
  ⟨rfl, sanitize_schema_spec.2.1 (JVal.obj (.cons "type" (.str "object") .nil)) rfl⟩

/-! ## C5: planning suppression -/

/-- C5: when planning mode is on after the gate and the first response
carries at least one tool-call request together with usable (non-blank)
text, execute runs no tool: it appends the text as a model-role entry,
returns success with toolCallCount 0 and an empty toolsUsed list, and the
agent is still in planning mode after the call. -/
theorem planning_suppression_returns_plan (env : Env) (s : AgentState) (p : String)
    (resp : GenResponse)
    (hinit : s.isInitialized = true)
    (hplan : planningAfter s.isPlanningMode p = true)
    (hfuel : env.maxIterations ≠ 0)
    (hgen : env.gen (trimHistory (preLoopHistory s p)) = .ok resp)
    (hfc : (extractFunctionCalls resp).isEmpty = false)
    (htxt : (strTrim (extractTextResponse resp)).isEmpty = false) :
    execute env s p =
      ({ success := true, response := extractTextResponse resp, toolCallCount := 0,
         toolsUsed := [], error := none },
       { s with
         history := trimHistory (preLoopHistory s p) ++
           [⟨"model", [Part.text (extractTextResponse resp)]⟩],
         isPlanningMode := true }) := by
  obtain ⟨n, hn⟩ := Nat.exists_eq_succ_of_ne_zero hfuel
  simp only [execute, hinit, Bool.not_true, Bool.false_eq_true, if_false, hplan, hn]
  simp only [execLoop]
  rw [hgen]
  simp only [hfc, Bool.not_false, Bool.and_true, if_true, htxt]

/-- The concrete planning response used to witness C5: one tool call plus
plan text. -/
def c5resp : GenResponse :=
  ⟨some [⟨some ⟨some [Part.text "The plan.",
    Part.functionCall ⟨some "t", JVal.null⟩]⟩⟩]⟩

/-- The concrete environment used to witness C5. -/
def c5env : Env := ⟨fun _ => .ok c5resp, [], 5⟩

/-- The concrete agent in planning mode used to witness C5. -/
def c5state : AgentState := ⟨[], true, true, "/w"⟩

/-- Witness for C5 at a concrete planning-mode call. -/
theorem planning_suppression_returns_plan_witness :
    execute c5env c5state "hi" =
      ({ success := true, response := extractTextResponse c5resp, toolCallCount := 0,
         toolsUsed := [], error := none },
       { c5state with
         history := trimHistory (preLoopHistory c5state "hi") ++
           [⟨"model", [Part.text (extractTextResponse c5resp)]⟩],
         isPlanningMode := true }) :=
  planning_suppression_returns_plan c5env c5state "hi" c5resp rfl rfl
    (by decide) rfl rfl rfl

/-! ## C3: trimming can leave a tool-result entry first -/

/-- An oversized history entry: a user text of 400000 characters, whose
serialized size exceeds the 400000-character budget on its own. -/
def c3big : Content := ⟨"user", [Part.text (String.mk (List.replicate 400000 'a'))]⟩

/-- A tool-result entry as the loop appends them: role "user", all parts
function responses. -/
def c3fr : Content := ⟨"user", [Part.functionResponse (some "t") (successResult JVal.null)]⟩

/-- Serialized size of a user entry holding one text part: the fixed JSON
scaffolding is 37 characters. -/
theorem contentSize_user_text (s : String) :
    contentSize ⟨"user", [Part.text s]⟩ = 37 + (s.toList.map escLen).sum := by
  show 2 + 7 + jstrLen "user" + 9 + 2 + (2 + 7 + jstrLen s) =
    37 + (s.toList.map escLen).sum
  rw [show jstrLen "user" = 6 from rfl, jstrLen]
  omega

/-- The escaped length of n letters `a` is n. -/
theorem sum_escLen_replicate (n : Nat) :
    ((String.mk (List.replicate n 'a')).toList.map escLen).sum = n := by
  show ((List.replicate n 'a').map escLen).sum = n
  rw [List.map_replicate, show escLen 'a' = 1 from rfl, List.sum_replicate,
    smul_eq_mul, Nat.mul_one]

/-- Serialized size of the oversized entry. -/
theorem c3big_size : contentSize c3big = 400037 := by
  show contentSize ⟨"user", [Part.text (String.mk (List.replicate 400000 'a'))]⟩ = 400037
  rw [contentSize_user_text, sum_escLen_replicate]

/-- C3: evaluated at a concrete history whose oldest entry exceeds the size
budget, _trimHistory keeps the tool-result entry as the first surviving
entry — the guard only removes entries whose role is "function", while the
loop appends tool-result entries with role "user", so the guard never
fires. -/
theorem trim_keeps_tool_result_first_code_bug :
    trimHistory [c3big, c3fr] = [c3fr] ∧ isToolResultEntry c3fr = true := by
  refine ⟨?_, rfl⟩
  have hb : contentSize c3big = 400037 := c3big_size
  have hf : contentSize c3fr = 99 := rfl
  have hstep : trimGo [c3fr, c3big] 0 [] = [c3fr] := by
    simp only [trimGo, hb, hf]
    norm_num
  unfold trimHistory
  rw [show ([c3big, c3fr] : List Content).reverse = [c3fr, c3big] from rfl, hstep]
  rfl

/-! ## C9: the iteration cap -/

/-- A nonempty list has isEmpty false. -/
theorem isEmpty_false_of_ne_nil {α : Type} {l : List α} (h : l ≠ []) :
    l.isEmpty = false := by
  cases l with
  | nil => exact absurd rfl h
  | cons x xs => rfl

/-- The backward trimming pass only ever prepends to its accumulator. -/
theorem trimGo_ends_with_acc (l : List Content) :
    ∀ (cur : Nat) (acc : List Content), ∃ pre, trimGo l cur acc = pre ++ acc := by
  induction l with
  | nil => intro cur acc; exact ⟨[], rfl⟩
  | cons c rest ih =>
    intro cur acc
    by_cases hc : cur + contentSize c > 400000
    · exact ⟨[], by simp [trimGo, hc]⟩
    · obtain ⟨pre, hp⟩ := ih (cur + contentSize c) (c :: acc)
      exact ⟨pre ++ [c], by simp [trimGo, hc, hp]⟩

/-- Dropping a prefix by a predicate the last element fails keeps a nonempty
list ending in that element. -/
theorem dropWhile_last_keep {α : Type} (p : α → Bool) (c : α) (hc : p c = false) :
    ∀ l : List α, (l ++ [c]).dropWhile p ≠ [] ∧
      ((l ++ [c]).dropWhile p).getLast? = some c := by
  intro l
  induction l with
  | nil => refine ⟨?_, ?_⟩ <;> simp [List.dropWhile, hc]
  | cons x rest ih =>
    by_cases hx : p x = true
    · simpa [List.dropWhile, hx] using ih
    · have hx2 : p x = false := by simpa using hx
      have hsplit : x :: (rest ++ [c]) = (x :: rest) ++ [c] := rfl
      refine ⟨?_, ?_⟩
      · simp [List.dropWhile, hx2]
      · show ((x :: (rest ++ [c])).dropWhile p).getLast? = some c
        rw [List.dropWhile_cons_of_neg (by simp [hx2]), hsplit, List.getLast?_concat]

/-- Trimming a history whose last entry is a small user entry keeps that
entry last and keeps the history nonempty. -/
theorem trim_keeps_small_user_last (h : List Content) (c : Content)
    (hlast : h.getLast? = some c) (hrole : c.role = "user")
    (hsize : contentSize c ≤ 400000) :
    trimHistory h ≠ [] ∧ (trimHistory h).getLast? = some c := by
  obtain ⟨l', hl⟩ := List.getLast?_eq_some_iff.mp hlast
  subst hl
  have hcond : ¬ (400000 < contentSize c) := by omega
  have hstep : trimGo ((l' ++ [c]).reverse) 0 [] =
      trimGo l'.reverse (contentSize c) [c] := by
    rw [show (l' ++ [c]).reverse = c :: l'.reverse by simp]
    simp [trimGo, hcond]
  obtain ⟨pre, hp⟩ := trimGo_ends_with_acc l'.reverse (contentSize c) [c]
  have hpc : (c.role == "function") = false := by
    rw [hrole]; rfl
  have hd := dropWhile_last_keep (fun x : Content => x.role == "function") c hpc pre
  unfold trimHistory
  rw [hstep, hp]
  exact hd

/-- Under history-preserving tools, each dispatch of the batch loop returns
the history unchanged. -/
theorem agentExecuteTool_preserves (tools : List RegTool)
    (hpres : ∀ t ∈ tools, ∀ args h, (t.exec args h).2 = h)
    (n : String) (args : JVal) (h : List Content) :
    (agentExecuteTool tools n args h).2 = h := by
  unfold agentExecuteTool executeToolReg
  cases hfind : tools.find? (fun t => t.name == n) with
  | none => rfl
  | some t =>
    dsimp only
    have h2 := hpres t (List.mem_of_find?_eq_some hfind) args h
    rcases hx : t.exec args h with ⟨out, hh⟩
    rw [hx] at h2
    cases out <;> simpa using h2

/-- Under history-preserving tools and a nonempty history, a batch keeps the
history, never sets the cleared flag, adds one dispatched call per request,
and appends the tool names in order; its parts do not depend on the incoming
counters. -/
theorem runBatch_spec (tools : List RegTool)
    (hpres : ∀ t ∈ tools, ∀ args h, (t.exec args h).2 = h) :
    ∀ (fcs : List FunctionCall) (h : List Content) (cnt : Nat) (used : List String),
      h ≠ [] →
      runBatch tools fcs h cnt used false =
        { parts := (runBatch tools fcs h 0 [] false).parts,
          history := h, count := cnt + fcs.length,
          used := used ++ fcs.map (fun fc => fc.name.getD "unknown"),
          cleared := false } := by
  intro fcs
  induction fcs with
  | nil => intro h cnt used hne; simp [runBatch]
  | cons fc rest ih =>
    intro h cnt used hne
    have hp := agentExecuteTool_preserves tools hpres (fc.name.getD "unknown") fc.args h
    have hie : h.isEmpty = false := isEmpty_false_of_ne_nil hne
    simp only [runBatch, hp, hie, Bool.or_false, Nat.zero_add, List.nil_append]
    rw [ih h (cnt + 1) (used ++ [fc.name.getD "unknown"]) hne,
      ih h 1 [fc.name.getD "unknown"] hne]
    simp [List.append_assoc]
    omega

/-- The dispatched-call accounting of the claim, replayed outside the loop:
for each permitted iteration, the batch of the backend response to the
trimmed history contributes its number of requested calls and the dispatched
tool names, and the history evolves exactly as the loop evolves it. -/
def dispatchTrace (env : Env) : Nat → List Content → Nat × List String
  | 0, _ => (0, [])
  | Nat.succ n, h =>
    match env.gen (trimHistory h) with
    | .error _ => (0, [])
    | .ok resp =>
      let fcs := extractFunctionCalls resp
      let r := dispatchTrace env n (trimHistory h ++
        [⟨"model", fcs.map Part.functionCall⟩,
         ⟨"user", (runBatch env.tools fcs (trimHistory h) 0 [] false).parts⟩])
      (fcs.length + r.1, fcs.map (fun fc => fc.name.getD "unknown") ++ r.2)

/-- Under any backend whose every response carries a tool-call request
(planning off, history-preserving tools, batch-result entries within the
size budget), the loop runs its whole fuel, counts every dispatched call and
records every tool name, and ends with the max-iterations failure result. -/
theorem iteration_cap_loop (env : Env)
    (hgen : ∀ h, ∃ resp, env.gen h = .ok resp ∧
      (extractFunctionCalls resp).isEmpty = false)
    (hpres : ∀ t ∈ env.tools, ∀ args h, (t.exec args h).2 = h)
    (hfr : ∀ (h : List Content) (resp : GenResponse), env.gen h = .ok resp →
      contentSize ⟨"user",
        (runBatch env.tools (extractFunctionCalls resp) h 0 [] false).parts⟩ ≤ 400000) :
    ∀ (fuel : Nat) (st : LoopSt) (c : Content),
      st.planning = false →
      st.history.getLast? = some c → c.role = "user" → contentSize c ≤ 400000 →
      (execLoop env fuel st).1 =
        .ok (maxIterResult
          (st.toolCallCount + (dispatchTrace env fuel st.history).1)
          (st.toolsUsed ++ (dispatchTrace env fuel st.history).2)) := by
  intro fuel
  induction fuel with
  | zero =>
    intro st c hpl hlast hrole hsize
    simp [execLoop, dispatchTrace]
  | succ fuel ih =>
    intro st c hpl hlast hrole hsize
    obtain ⟨resp, hresp, hfcr⟩ := hgen (trimHistory st.history)
    obtain ⟨hne, hlast2⟩ := trim_keeps_small_user_last st.history c hlast hrole hsize
    have hb := runBatch_spec env.tools hpres (extractFunctionCalls resp)
      (trimHistory st.history) st.toolCallCount st.toolsUsed hne
    have htr : dispatchTrace env (fuel + 1) st.history =
        ((extractFunctionCalls resp).length +
          (dispatchTrace env fuel (trimHistory st.history ++
            [⟨"model", (extractFunctionCalls resp).map Part.functionCall⟩,
             ⟨"user", (runBatch env.tools (extractFunctionCalls resp)
               (trimHistory st.history) 0 [] false).parts⟩])).1,
         (extractFunctionCalls resp).map (fun fc => fc.name.getD "unknown") ++
          (dispatchTrace env fuel (trimHistory st.history ++
            [⟨"model", (extractFunctionCalls resp).map Part.functionCall⟩,
             ⟨"user", (runBatch env.tools (extractFunctionCalls resp)
               (trimHistory st.history) 0 [] false).parts⟩])).2) := by
      simp only [dispatchTrace]
      rw [hresp]
    simp only [execLoop]
    rw [hresp]
    dsimp only
    rw [hpl, hfcr, hb]
    simp only [Bool.false_and, Bool.not_false, Bool.false_eq_true, if_false]
    have hlast3 :
        (trimHistory st.history ++
          [⟨"model", (extractFunctionCalls resp).map Part.functionCall⟩,
           ⟨"user", (runBatch env.tools (extractFunctionCalls resp)
             (trimHistory st.history) 0 [] false).parts⟩] : List Content).getLast? =
          some ⟨"user", (runBatch env.tools (extractFunctionCalls resp)
             (trimHistory st.history) 0 [] false).parts⟩ := by
      rw [show (trimHistory st.history ++
          [⟨"model", (extractFunctionCalls resp).map Part.functionCall⟩,
           ⟨"user", (runBatch env.tools (extractFunctionCalls resp)
             (trimHistory st.history) 0 [] false).parts⟩] : List Content) =
        (trimHistory st.history ++
          [⟨"model", (extractFunctionCalls resp).map Part.functionCall⟩]) ++
          [⟨"user", (runBatch env.tools (extractFunctionCalls resp)
             (trimHistory st.history) 0 [] false).parts⟩] by simp]
      exact List.getLast?_concat _
    rw [ih _ _ rfl hlast3 rfl (hfr (trimHistory st.history) resp hresp), htr]
    congr 1
    simp [maxIterResult, List.append_assoc]
    omega

/-- One loop iteration through the tool-batch branch when the batch does not
clear the history: the loop continues with the batch entries appended and
the counters advanced. -/
theorem execLoop_batch_step (env : Env) (fuel : Nat) (st : LoopSt)
    (resp : GenResponse)
    (hpl : st.planning = false)
    (hgen : env.gen (trimHistory st.history) = .ok resp)
    (hfc : (extractFunctionCalls resp).isEmpty = false)
    (hcl : (runBatch env.tools (extractFunctionCalls resp) (trimHistory st.history)
      st.toolCallCount st.toolsUsed false).cleared = false) :
    execLoop env (fuel + 1) st =
      execLoop env fuel
        { history :=
            (runBatch env.tools (extractFunctionCalls resp) (trimHistory st.history)
              st.toolCallCount st.toolsUsed false).history ++
            [⟨"model", (extractFunctionCalls resp).map Part.functionCall⟩,
             ⟨"user", (runBatch env.tools (extractFunctionCalls resp)
               (trimHistory st.history) st.toolCallCount st.toolsUsed false).parts⟩],
          planning := st.planning,
          toolCallCount :=
            (runBatch env.tools (extractFunctionCalls resp) (trimHistory st.history)
              st.toolCallCount st.toolsUsed false).count,
          toolsUsed :=
            (runBatch env.tools (extractFunctionCalls resp) (trimHistory st.history)
              st.toolCallCount st.toolsUsed false).used } := by
  simp only [execLoop]
  rw [hgen]
  dsimp only
  rw [hpl, hfc, hcl]
  simp only [Bool.false_and, Bool.not_false, Bool.false_eq_true, if_false]

/-- One loop iteration through the tool-batch branch when the batch finds
the history empty after a dispatch: the loop stops with the memory-cleared
success result carrying the batch counters. -/
theorem execLoop_cleared_step (env : Env) (fuel : Nat) (st : LoopSt)
    (resp : GenResponse)
    (hpl : st.planning = false)
    (hgen : env.gen (trimHistory st.history) = .ok resp)
    (hfc : (extractFunctionCalls resp).isEmpty = false)
    (hcl : (runBatch env.tools (extractFunctionCalls resp) (trimHistory st.history)
      st.toolCallCount st.toolsUsed false).cleared = true) :
    execLoop env (fuel + 1) st =
      (.ok { success := true, response := memoryClearedResponse,
             toolCallCount :=
               (runBatch env.tools (extractFunctionCalls resp) (trimHistory st.history)
                 st.toolCallCount st.toolsUsed false).count,
             toolsUsed := dedupFirst
               (runBatch env.tools (extractFunctionCalls resp) (trimHistory st.history)
                 st.toolCallCount st.toolsUsed false).used,
             error := none },
       { history :=
           (runBatch env.tools (extractFunctionCalls resp) (trimHistory st.history)
             st.toolCallCount st.toolsUsed false).history,
         planning := st.planning,
         toolCallCount :=
           (runBatch env.tools (extractFunctionCalls resp) (trimHistory st.history)
             st.toolCallCount st.toolsUsed false).count,
         toolsUsed :=
           (runBatch env.tools (extractFunctionCalls resp) (trimHistory st.history)
             st.toolCallCount st.toolsUsed false).used }) := by
  simp only [execLoop]
  rw [hgen]
  dsimp only
  rw [hpl, hfc, hcl]
  simp only [Bool.false_and, Bool.not_false, Bool.false_eq_true, if_false, if_true]

/-- execute on an initialized agent returns exactly the result its loop run
delivers, when that run succeeds. -/
theorem execute_ok_result (env : Env) (s : AgentState) (p : String)
    (hinit : s.isInitialized = true) (r : AgentResult) (lst : LoopSt)
    (hE : execLoop env env.maxIterations
      ⟨preLoopHistory s p, planningAfter s.isPlanningMode p, 0, []⟩ = (.ok r, lst)) :
    (execute env s p).1 = r := by
  simp only [execute, hinit, Bool.not_true, Bool.false_eq_true, if_false]
  rw [hE]

/-- An untruncated large tool payload: 400000 characters of data, as an MCP
server may return for a large file read. -/
def bigPayload : JVal := .str (String.mk (List.replicate 400000 'a'))

/-- A history-preserving registered tool returning the large payload. -/
def c9ctool : RegTool :=
  ⟨"big", "returns a large payload", fun _ h => (.ok (successResult bigPayload), h)⟩

/-- The constant response requesting the large-payload tool. -/
def c9cresp : GenResponse :=
  ⟨some [⟨some ⟨some [Part.functionCall ⟨some "big", JVal.null⟩]⟩⟩]⟩

/-- The counterexample environment: three permitted iterations, the
large-payload tool, a backend that always requests it. -/
def c9cenv : Env := ⟨fun _ => .ok c9cresp, [c9ctool], 3⟩

/-- The counterexample agent: initialized, planning off. -/
def c9cstate : AgentState := ⟨[], true, false, "/w"⟩

/-- The history after the first iteration: the pre-loop history followed by
the model call entry and the oversized batch-result entry. -/
def c9chist1 : List Content :=
  preLoopHistory c9cstate "hi" ++
    [⟨"model", [Part.functionCall ⟨some "big", JVal.null⟩]⟩,
     ⟨"user", [Part.functionResponse (some "big")
       (formatForGemini (successResult bigPayload))]⟩]

/-- Serialized size of a batch-result entry holding one successful response
named `big` with a string payload: 99 characters of scaffolding plus the
escaped payload. -/
theorem contentSize_user_bigfr (s : String) :
    contentSize ⟨"user", [Part.functionResponse (some "big")
      { success := true, data := JVal.str s, error := none }]⟩ =
      99 + (s.toList.map escLen).sum := by
  show 2 + 7 + jstrLen "user" + 9 + 2 +
    (2 + 19 + (2 + optNameSize (some "big") + 11 +
      (2 + 10 + 4 + 8 + jstrLen s + 0))) = 99 + (s.toList.map escLen).sum
  rw [show jstrLen "user" = 6 from rfl, show optNameSize (some "big") = 13 from rfl,
    jstrLen]
  omega

/-- The oversized batch-result entry measures 400099 characters. -/
theorem c9cfr_size :
    contentSize ⟨"user", [Part.functionResponse (some "big")
      (formatForGemini (successResult bigPayload))]⟩ = 400099 := by
  show contentSize ⟨"user", [Part.functionResponse (some "big")
    { success := true, data := JVal.str (String.mk (List.replicate 400000 'a')),
      error := none }]⟩ = 400099
  rw [contentSize_user_bigfr, sum_escLen_replicate]

/-- Trimming the post-first-iteration history drops everything: the most
recent entry alone exceeds the budget: the backward pass keeps nothing. -/
theorem c9ctrim_empty : trimHistory c9chist1 = [] := by
  have hgt : 0 + contentSize
      (⟨"user", [Part.functionResponse (some "big")
        (formatForGemini (successResult bigPayload))]⟩ : Content) > 400000 := by
    rw [c9cfr_size]
    omega
  unfold trimHistory c9chist1
  rw [show (preLoopHistory c9cstate "hi" ++
      [⟨"model", [Part.functionCall ⟨some "big", JVal.null⟩]⟩,
       ⟨"user", [Part.functionResponse (some "big")
         (formatForGemini (successResult bigPayload))]⟩] : List Content).reverse =
    ⟨"user", [Part.functionResponse (some "big")
      (formatForGemini (successResult bigPayload))]⟩ ::
    ⟨"model", [Part.functionCall ⟨some "big", JVal.null⟩]⟩ ::
    (preLoopHistory c9cstate "hi").reverse by simp]
  rw [show trimGo (⟨"user", [Part.functionResponse (some "big")
      (formatForGemini (successResult bigPayload))]⟩ ::
    ⟨"model", [Part.functionCall ⟨some "big", JVal.null⟩]⟩ ::
    (preLoopHistory c9cstate "hi").reverse) 0 [] = [] from by
      simp only [trimGo]
      rw [if_pos hgt]]
  rfl

/-- C9 counterexample: at a backend that always requests a (registered,
history-preserving) tool whose payload is 400000 characters, with planning
off and three permitted iterations, execute does not return the
iteration-cap failure the claim demands: the oversized batch-result entry
makes the next trim empty the whole history, the post-dispatch empty check
fires, and execute returns the memory-cleared success after two dispatched
calls. -/
theorem iteration_cap_counterexample :
    planningAfter c9cstate.isPlanningMode "hi" = false ∧
    (extractFunctionCalls c9cresp).isEmpty = false ∧
    (execute c9cenv c9cstate "hi").1 =
      { success := true, response := memoryClearedResponse, toolCallCount := 2,
        toolsUsed := ["big"], error := none } := by
  refine ⟨rfl, rfl, ?_⟩
  have h1 : execLoop c9cenv 3 ⟨preLoopHistory c9cstate "hi", false, 0, []⟩ =
      execLoop c9cenv 2 ⟨c9chist1, false, 1, ["big"]⟩ :=
    execLoop_batch_step c9cenv 2 ⟨preLoopHistory c9cstate "hi", false, 0, []⟩
      c9cresp rfl rfl rfl rfl
  have hcl2 : (runBatch c9cenv.tools (extractFunctionCalls c9cresp)
      (trimHistory c9chist1) 1 ["big"] false).cleared = true := by
    rw [c9ctrim_empty]
    rfl
  have hb2 : runBatch c9cenv.tools (extractFunctionCalls c9cresp)
      (trimHistory c9chist1) 1 ["big"] false =
      { parts := [Part.functionResponse (some "big")
          (formatForGemini (successResult bigPayload))],
        history := [], count := 2, used := ["big", "big"], cleared := true } := by
    rw [c9ctrim_empty]
    rfl
  have h2 : execLoop c9cenv 2 ⟨c9chist1, false, 1, ["big"]⟩ =
      (.ok { success := true, response := memoryClearedResponse,
             toolCallCount := (runBatch c9cenv.tools (extractFunctionCalls c9cresp)
               (trimHistory c9chist1) 1 ["big"] false).count,
             toolsUsed := dedupFirst (runBatch c9cenv.tools
               (extractFunctionCalls c9cresp)
               (trimHistory c9chist1) 1 ["big"] false).used,
             error := none },
       { history := (runBatch c9cenv.tools (extractFunctionCalls c9cresp)
           (trimHistory c9chist1) 1 ["big"] false).history,
         planning := false,
         toolCallCount := (runBatch c9cenv.tools (extractFunctionCalls c9cresp)
           (trimHistory c9chist1) 1 ["big"] false).count,
         toolsUsed := (runBatch c9cenv.tools (extractFunctionCalls c9cresp)
           (trimHistory c9chist1) 1 ["big"] false).used }) :=
    execLoop_cleared_step c9cenv 1 ⟨c9chist1, false, 1, ["big"]⟩ c9cresp
      rfl rfl rfl hcl2
  rw [hb2] at h2
  exact execute_ok_result c9cenv c9cstate "hi" rfl _ _ (h1.trans h2)

/-- C9 amended: for every LLM backend behavior in which each response (to
whatever history it is shown) contains at least one tool-call request, with
planning off, registered tools that leave the agent history untouched (as
every registered tool of the repository does), and no single appended entry
exceeding the 400000-character trim budget — neither the user prompt entry
nor any batch-result entry, the cases iteration_cap_counterexample shows
would otherwise end in the memory-cleared success — execute returns the
max-iterations failure result (success false, the step-budget message,
`Maximum iterations reached` in the error field) with toolCallCount equal to
the total number of tool calls actually dispatched during the maxIterations
permitted iterations and the dispatched tool names recorded, as totalled by
dispatchTrace. -/
theorem iteration_cap_amended (env : Env) (s : AgentState) (p : String)
    (hinit : s.isInitialized = true)
    (hplan : planningAfter s.isPlanningMode p = false)
    (hgen : ∀ h, ∃ resp, env.gen h = .ok resp ∧
      (extractFunctionCalls resp).isEmpty = false)
    (hpres : ∀ t ∈ env.tools, ∀ args h, (t.exec args h).2 = h)
    (hfr : ∀ (h : List Content) (resp : GenResponse), env.gen h = .ok resp →
      contentSize ⟨"user",
        (runBatch env.tools (extractFunctionCalls resp) h 0 [] false).parts⟩ ≤ 400000)
    (hp : contentSize ⟨"user", [Part.text p]⟩ ≤ 400000) :
    (execute env s p).1 =
      maxIterResult (dispatchTrace env env.maxIterations (preLoopHistory s p)).1
        (dispatchTrace env env.maxIterations (preLoopHistory s p)).2 := by
  have hlast : (preLoopHistory s p).getLast? = some ⟨"user", [Part.text p]⟩ := by
    unfold preLoopHistory
    rw [hplan]
    simp [List.getLast?_concat]
  have hloop := iteration_cap_loop env hgen hpres hfr env.maxIterations
    ⟨preLoopHistory s p, planningAfter s.isPlanningMode p, 0, []⟩
    ⟨"user", [Part.text p]⟩ (by rw [hplan]) hlast rfl hp
  simp only [execute, hinit, Bool.not_true, Bool.false_eq_true, if_false]
  rcases hE : execLoop env env.maxIterations
    ⟨preLoopHistory s p, planningAfter s.isPlanningMode p, 0, []⟩ with ⟨out, lst⟩
  rw [hE] at hloop
  simp only at hloop
  rw [hloop]
  simp

/-- The constant one-tool-call response used to witness the amended C9. -/
def c9resp : GenResponse :=
  ⟨some [⟨some ⟨some [Part.functionCall ⟨some "t", JVal.null⟩]⟩⟩]⟩

/-- The concrete environment used to witness the amended C9: two iterations,
no registered tools, a backend that always requests the tool call. -/
def c9env : Env := ⟨fun _ => .ok c9resp, [], 2⟩

/-- The concrete agent used to witness the amended C9. -/
def c9state : AgentState := ⟨[], true, false, "/w"⟩

/-- Witness for the amended C9: two iterations of one dispatched call each
end in the max-iterations failure with the traced accounting. -/
theorem iteration_cap_amended_witness :
    (execute c9env c9state "hi").1 =
      maxIterResult (dispatchTrace c9env c9env.maxIterations
          (preLoopHistory c9state "hi")).1
        (dispatchTrace c9env c9env.maxIterations (preLoopHistory c9state "hi")).2 := by
  refine iteration_cap_amended c9env c9state "hi" rfl rfl ?_ ?_ ?_ (by decide)
  · intro h
    exact ⟨c9resp, rfl, rfl⟩
  · intro t ht
    exact absurd ht (List.not_mem_nil t)
  · intro h resp hr
    have hre : c9resp = resp := Except.ok.inj hr
    subst hre
    have hparts : (runBatch c9env.tools (extractFunctionCalls c9resp) h 0 [] false).parts =
        [Part.functionResponse (some "t")
          (formatForGemini (errorResult ("Unknown tool: " ++ "t")))] := rfl
    rw [hparts]
    decide

end DCB
